import Mathlib

/-!
Verification of the Mythic CLI docker-compose manager
(`Mythic_CLI/src/cmd/manager/dockerComposeManager.go`).

The manager keeps a single YAML configuration document (the docker-compose
file) holding a `services` sub-mapping and a `volumes` sub-mapping.  We embed
the document as an association list of string keys to semi-structured values
(`YVal`), and each Go function that the claims mention as a Lean function on
that representation.

The Go code reads the document through the viper library.  Viper is
case-insensitive: on every read it normalizes all mapping keys (recursively)
to lowercase, and `AllSettings` / `GetStringMap` / `Sub` return maps whose
keys are lowercased.  `readInDockerCompose` below therefore normalizes keys
with `lowerStr`, the ASCII lowercasing that both Go's `strings.ToLower` and
viper perform on the names appearing in this code base.  Serialization
(`yaml.Marshal` + whole-file write) preserves the map contents, so a write
followed by `readInDockerCompose` is modelled as key normalization of the
written map.
-/

namespace Mythic

/-- ASCII lowercasing of a string, character by character; the embedding of
Go's `strings.ToLower` (and of viper's key insensitivisation) for the ASCII
names used throughout the manager. -/
def lowerStr (s : String) : String := ⟨s.data.map Char.toLower⟩

/-- Semi-structured YAML-ish value: a scalar string or a mapping.  This is
the value universe the claims exercise (the document maps of the Go code are
`map[string]interface{}` whose entries here are strings or nested maps). -/
inductive YVal where
  | s (v : String)
  | m (entries : List (String × YVal))
deriving Repr

/-- Top-level shape of a document or of a sub-mapping: an association list
from string keys to values, the embedding of one Go `map[string]interface{}`. -/
abbrev Entries := List (String × YVal)

mutual
def YVal.decEq : (a b : YVal) → Decidable (a = b)
  | .s x, .s y =>
    match String.decEq x y with
    | isTrue h => isTrue (h ▸ rfl)
    | isFalse h => isFalse (fun he => h (YVal.s.inj he))
  | .s _, .m _ => isFalse (fun h => YVal.noConfusion h)
  | .m _, .s _ => isFalse (fun h => YVal.noConfusion h)
  | .m es1, .m es2 =>
    match decEqEntries es1 es2 with
    | isTrue h => isTrue (h ▸ rfl)
    | isFalse h => isFalse (fun he => h (YVal.m.inj he))

def decEqEntries : (a b : Entries) → Decidable (a = b)
  | [], [] => isTrue rfl
  | [], _ :: _ => isFalse (fun h => List.noConfusion h)
  | _ :: _, [] => isFalse (fun h => List.noConfusion h)
  | (k1, v1) :: r1, (k2, v2) :: r2 =>
    match String.decEq k1 k2 with
    | isFalse h => isFalse (fun he => h (congrArg (fun l => (l.headD ("", .s "")).1) he))
    | isTrue hk =>
      match YVal.decEq v1 v2 with
      | isFalse h => isFalse (fun he => h (congrArg (fun l => (l.headD ("", .s "")).2) he))
      | isTrue hv =>
        match decEqEntries r1 r2 with
        | isFalse h => isFalse (fun he => h (congrArg List.tail he))
        | isTrue hr => isTrue (by rw [hk, hv, hr])
end

instance : DecidableEq YVal := YVal.decEq

/-- Lookup in a Go map modelled as an association list (first match wins). -/
def lookupE : Entries → String → Option YVal
  | [], _ => none
  | (k, v) :: rest, key => if k = key then some v else lookupE rest key

/-- Go map assignment `m[key] = v`: replace the first entry with that exact
key, or append a new entry. -/
def insertE : Entries → String → YVal → Entries
  | [], key, v => [(key, v)]
  | (k, v0) :: rest, key, v =>
    if k = key then (key, v) :: rest else (k, v0) :: insertE rest key v

/-- Go `delete(m, key)`: drop the entries with that exact key. -/
def eraseE (es : Entries) (key : String) : Entries :=
  es.filter (fun e => e.1 ≠ key)

mutual
/-- Viper key insensitivisation on a value: every mapping key, at every
depth, is lowercased.  Scalars are untouched. -/
def YVal.normalize : YVal → YVal
  | .s v => .s v
  | .m es => .m (normalizeEntries es)

/-- Viper key insensitivisation on one mapping level. -/
def normalizeEntries : Entries → Entries
  | [] => []
  | (k, v) :: rest => (lowerStr k, v.normalize) :: normalizeEntries rest
end

/-- The in-memory view viper gives of the on-disk document
(`readInDockerCompose` + `AllSettings` in the Go code): the same map with
all keys lowercased. -/
def readInDockerCompose (disk : Entries) : Entries := normalizeEntries disk

/-- The transient keys `GetServiceConfiguration` deletes from a stored
definition before returning it, in the deletion order of the Go code. -/
def transientKeys : List String :=
  ["network_mode", "extra_hosts", "build", "networks", "command", "image", "healthcheck"]

/-- The seven `delete(pStruct, ...)` calls of `GetServiceConfiguration`. -/
def stripTransient (es : Entries) : Entries :=
  transientKeys.foldl eraseE es

/-- The generic definition `GetServiceConfiguration` returns for a service
absent from the document: restart always, bounded json logging, a name
label, and container name and image equal to the service name. -/
def defaultServiceConfig (service : String) : Entries :=
  [ ("logging", .m
      [ ("driver", .s "json-file"),
        ("options", .m [("max-file", .s "1"), ("max-size", .s "10m")]) ]),
    ("restart", .s "always"),
    ("labels", .m [("name", .s service)]),
    ("container_name", .s service),
    ("image", .s service) ]

/-- `GetServiceConfiguration`: read the document; if `services.<lowercased
name>` exists, return it with the transient keys deleted (an existing
non-map value reads as the empty map through `GetStringMap`); otherwise
return the default definition. -/
def GetServiceConfiguration (disk : Entries) (service : String) : Entries :=
  let curConfig := readInDockerCompose disk
  match lookupE curConfig "services" with
  | some (.m svcs) =>
    match lookupE svcs (lowerStr service) with
    | some (.m pStruct) => stripTransient pStruct
    | some _ => stripTransient []
    | none => defaultServiceConfig service
  | _ => defaultServiceConfig service

/-- `setDockerComposeDefaultsAndWrite`: before serializing, set
`version = "2.4"` and delete the document-level `networks` key; the result
is the new on-disk document. -/
def setDockerComposeDefaultsAndWrite (curConfig : Entries) : Entries :=
  eraseE (insertE curConfig "version" (.s "2.4")) "networks"

/-- `SetServiceConfiguration`: read the document, create an empty `services`
map if absent, store `pStruct` under the service name exactly as given (the
Go code indexes `allServices[service]` without lowercasing), and write the
document back with the defaults applied.  `none` models the Go panic of the
`allConfigValues["services"].(map[string]interface{})` type assertion when
the `services` key holds a non-map. -/
def SetServiceConfiguration (disk : Entries) (service : String) (pStruct : Entries) :
    Option Entries :=
  let cur0 := readInDockerCompose disk
  let cur := if (lookupE cur0 "services").isSome then cur0
             else insertE cur0 "services" (.m [])
  match lookupE cur "services" with
  | some (.m allServices) =>
    some (setDockerComposeDefaultsAndWrite
      (insertE cur "services" (.m (insertE allServices service (.m pStruct)))))
  | some _ => none
  | none => none

/-- `RemoveServices`: read the document; if it has a `services` map, delete
the lowercased form of each requested name from it (the per-name
`IsServiceRunning`/`StopServices` calls only touch the container engine, not
the document); write the document back with the defaults applied.  `none`
models the Go panic when `services` holds a non-map. -/
def RemoveServices (disk : Entries) (services : List String) : Option Entries :=
  let cur := readInDockerCompose disk
  match lookupE cur "services" with
  | some (.m allServices) =>
    some (setDockerComposeDefaultsAndWrite
      (insertE cur "services"
        (.m (services.foldl (fun m svc => eraseE m (lowerStr svc)) allServices))))
  | some _ => none
  | none => some (setDockerComposeDefaultsAndWrite cur)

/-- Modelled from the spec: the Core Service Set
(`config.MythicPossibleServices`, defined in the `config` package which is
not part of the sources here).  Per spec sections 3 and 6 it is the fixed
enumerable set of first-party roles — primary server, database, GraphQL
console, message broker, documentation, reverse proxy, UI, notebook — whose
engine-visible names appear verbatim in `TestPorts` and
`PrintConnectionInfo`. -/
def MythicPossibleServices : List String :=
  [ "mythic_server", "mythic_postgres", "mythic_graphql", "mythic_rabbitmq",
    "mythic_documentation", "mythic_nginx", "mythic_react", "mythic_jupyter" ]

/-- `GetAllInstalled3rdPartyServiceNames`: the keys of the `services`
sub-mapping that are not core Mythic service names (no `services` map reads
as the empty list, as viper's `Sub` returns nil there). -/
def GetAllInstalled3rdPartyServiceNames (disk : Entries) : List String :=
  match lookupE (readInDockerCompose disk) "services" with
  | some (.m svcs) =>
    (svcs.map Prod.fst).filter (fun service => !(MythicPossibleServices.contains service))
  | _ => []

/-! ## Frame decoder (`GetLogs`)

The docker log stream is modelled as a list of chunks: each Go
`reader.Read(buf)` call consumes the next chunk, copies up to `buf.length`
of its bytes into the front of the buffer (leaving the rest of the buffer
unchanged, as Go `Read` only writes the bytes it returns), and reports an
error exactly when no chunk remains.  This is one legal behaviour of an
`io.Reader`; the Go code ignores the returned byte counts. -/

/-- One `reader.Read(buf)` call: returns the new buffer contents, whether an
error (end of stream) occurred, and the remaining chunks. -/
def readChunk (buf : List Nat) : List (List Nat) → List Nat × Bool × List (List Nat)
  | [] => (buf, true, [])
  | c :: rest => ((c.take buf.length) ++ buf.drop c.length, false, rest)

/-- Big-endian unsigned 32-bit payload length from bytes 4-7 of the 8-byte
frame header (`binary.BigEndian.Uint32(p[4:])`). -/
def beUint32 (p : List Nat) : Nat :=
  (p.getD 4 0) * 16777216 + (p.getD 5 0) * 65536 + (p.getD 6 0) * 256 + p.getD 7 0

/-- The `for err == nil` loop of `GetLogs`: interpret the 8-byte header in
`p`, allocate a zeroed payload buffer of the announced length, issue one
read into it (ignoring its error and byte count, as the Go code does), print
it, then read the next header into `p` and continue while no error.  The
fuel only bounds the recursion; each iteration consumes at least one chunk,
so `chunks.length` fuel is always enough. -/
def getLogsLoop : Nat → List Nat → List (List Nat) → List Nat
  | 0, _, _ => []
  | fuel + 1, p, chunks =>
    let content0 := List.replicate (beUint32 p) 0
    let r1 := readChunk content0 chunks
    let r2 := readChunk p r1.2.2
    r1.1 ++ (if r2.2.1 then [] else getLogsLoop fuel r2.1 r2.2.2)

/-- `GetLogs` frame decoding: read an 8-byte header, then loop.  Returns
every byte the Go code passes to `fmt.Printf`. -/
def getLogsDecode (chunks : List (List Nat)) : List Nat :=
  let p0 := List.replicate 8 0
  let r := readChunk p0 chunks
  if r.2.1 then [] else getLogsLoop chunks.length r.1 r.2.2

/-! ## Port prechecker (`TestPorts`) -/

/-- One entry of the `portChecks` table of `TestPorts`: the environment
variable naming the host binding, the environment variable naming the port,
and the engine-visible service name. -/
structure PortCheck where
  hostKey : String
  portKey : String
  serviceName : String
deriving Repr, DecidableEq

/-- The `portChecks` table of `TestPorts` (a Go map; its iteration order is
unspecified, so every theorem below is insensitive to the order of this
list). -/
def portChecks : List PortCheck :=
  [ ⟨"MYTHIC_SERVER_HOST", "MYTHIC_SERVER_PORT", "mythic_server"⟩,
    ⟨"POSTGRES_HOST", "POSTGRES_PORT", "mythic_postgres"⟩,
    ⟨"HASURA_HOST", "HASURA_PORT", "mythic_graphql"⟩,
    ⟨"RABBITMQ_HOST", "RABBITMQ_PORT", "mythic_rabbitmq"⟩,
    ⟨"DOCUMENTATION_HOST", "DOCUMENTATION_PORT", "mythic_documentation"⟩,
    ⟨"NGINX_HOST", "NGINX_PORT", "mythic_nginx"⟩,
    ⟨"MYTHIC_REACT_HOST", "MYTHIC_REACT_PORT", "mythic_react"⟩,
    ⟨"JUPYTER_HOST", "JUPYTER_PORT", "mythic_jupyter"⟩ ]

/-- Outcome of `TestPorts`: the `(service, port)` pairs for which a TCP bind
on all interfaces was attempted (each successful bind is closed again
immediately), and whether a bind failure made the whole run fatal
(`log.Fatalf` exits the process, so nothing after the failing check runs). -/
structure TestPortsResult where
  attempted : List (String × Nat)
  fatal : Bool
deriving Repr, DecidableEq

/-- The body of `TestPorts` over a tail of the `portChecks` table:
`getString`/`getInt` model the `mythicEnv` lookups and `portBusy` models
`net.Listen` failing because the port is taken. -/
def testPortsAux (services : List String) (getString : String → String)
    (getInt : String → Nat) (portBusy : Nat → Bool) :
    List PortCheck → TestPortsResult
  | [] => ⟨[], false⟩
  | pc :: rest =>
    if services.contains pc.serviceName then
      if getString pc.hostKey = pc.serviceName ∨ getString pc.hostKey = "127.0.0.1" then
        if portBusy (getInt pc.portKey) then ⟨[(pc.serviceName, getInt pc.portKey)], true⟩
        else
          ⟨(pc.serviceName, getInt pc.portKey) ::
              (testPortsAux services getString getInt portBusy rest).attempted,
            (testPortsAux services getString getInt portBusy rest).fatal⟩
      else testPortsAux services getString getInt portBusy rest
    else testPortsAux services getString getInt portBusy rest

/-- `TestPorts`: for each entry of `portChecks` whose service is about to
start, bind-test its configured port when its configured host is the
service's own name or the loopback address. -/
def TestPorts (services : List String) (getString : String → String)
    (getInt : String → Nat) (portBusy : Nat → Bool) : TestPortsResult :=
  testPortsAux services getString getInt portBusy portChecks

/-! ## Status row port rendering (`Status`) -/

/-- One entry of `container.Ports` as used by `Status`. -/
structure PortInfo where
  privatePort : Nat
  publicPort : Nat
  ip : String
  proto : String
deriving Repr, DecidableEq

/-- The `sort.Slice` call of `Status` ordering a container's ports by
published port (modelled by a stable insertion sort, one sorted permutation
the unstable Go sort may produce). -/
def sortPortsByPublic (ports : List PortInfo) : List PortInfo :=
  List.insertionSort (fun a b => a.publicPort ≤ b.publicPort) ports

/-- The explicit rendering `fmt.Sprintf` produces for a non-identity port
mapping. -/
def fmtPortMap (p : PortInfo) : String :=
  toString p.privatePort ++ "/" ++ p.proto ++ " -> " ++ p.ip ++ ":" ++ toString p.publicPort

/-- One step of the port-classification loop of `Status`: skip an
unpublished port, append an identity mapping (container port equal to
published port, published on `0.0.0.0`) to the bare list, and any other
mapping to the explicit list. -/
def collectStep (acc : List Nat × List String) (p : PortInfo) : List Nat × List String :=
  if p.publicPort > 0 then
    if p.privatePort = p.publicPort ∧ p.ip = "0.0.0.0" then
      (acc.1 ++ [p.privatePort], acc.2)
    else
      (acc.1, acc.2 ++ [fmtPortMap p])
  else acc

/-- The port-classification loop of `Status`. -/
def collectPorts (ports : List PortInfo) : List Nat × List String :=
  ports.foldl collectStep ([], [])

/-- The port column of one `Status` row: sort the ports by published port,
classify them, sort the bare ports ascending, then emit the explicit mapping
strings first and the bare port list after them, comma-separated. -/
def statusPortString (ports : List PortInfo) : String :=
  if ports.length > 0 then
    let sorted := sortPortsByPublic ports
    let collected := collectPorts sorted
    let portRanges :=
      if collected.1.length > 0 then
        List.insertionSort (fun a b : Nat => a ≤ b) collected.1
      else collected.1
    let portString := String.intercalate ", " collected.2
    let stringPortRanges := portRanges.map toString
    let portString :=
      if stringPortRanges.length > 0 ∧ portString.length > 0 then portString ++ ", "
      else portString
    portString ++ String.intercalate ", " stringPortRanges
  else ""

/-! ## Compose tool selection (`runDockerCompose`) -/

/-- The tool-selection head of `runDockerCompose`: `exec.LookPath` for the
standalone `docker-compose` binary first, used with the arguments unchanged;
on failure `exec.LookPath` for `docker` with the single token `compose`
prepended to the arguments; if both lookups fail the Go code calls
`log.Fatalf` (modelled as `none`) — there is no further fallback. -/
def runDockerComposeSelect (installed : String → Bool) (args : List String) :
    Option (String × List String) :=
  if installed "docker-compose" then some ("docker-compose", args)
  else if installed "docker" then some ("docker", "compose" :: args)
  else none

/-! ## Volume removal (`RemoveVolume`) -/

/-- The engine-level facts `RemoveVolume` consults about one container:
its identifier, its `name` label, and the names of its mounted volumes. -/
structure ContainerInfo where
  id : String
  name : String
  mounts : List String
deriving Repr, DecidableEq

/-- An engine operation `RemoveVolume` may issue. -/
inductive EngineAction where
  | removeContainer (id : String)
  | removeVolume (name : String)
deriving Repr, DecidableEq

/-- `RemoveVolume`: walk the engine's volume list; at the first volume whose
name matches, force-remove every container once per mount of that volume
(per-item failures are logged and ignored), remove the volume, and return
the engine's answer (`volumeRemoveErr`).  If no volume matches, log
"Volume not found" and return nil — no action is issued. -/
def RemoveVolume (engineVolumes : List String) (containers : List ContainerInfo)
    (volumeRemoveErr : String → Option String) (volumeName : String) :
    List EngineAction × Option String :=
  match engineVolumes.find? (fun v => v = volumeName) with
  | some v =>
    (containers.foldl
        (fun acc c =>
          acc ++ (c.mounts.filter (fun m => m = volumeName)).map
            (fun _ => EngineAction.removeContainer c.id))
        []
      ++ [EngineAction.removeVolume v],
     volumeRemoveErr v)
  | none => ([], none)

/-! ## Derived views and spec-side definitions used to state the claims -/

/-- The `services` sub-mapping as viper presents it (empty when absent or
not a mapping). -/
def declaredServices (disk : Entries) : Entries :=
  match lookupE (readInDockerCompose disk) "services" with
  | some (.m svcs) => svcs
  | _ => []

/-- The document shape on which `SetServiceConfiguration` does not hit the
Go `map[string]interface{}` type-assertion panic: `services` is absent or a
mapping. -/
def servicesWellFormed (disk : Entries) : Bool :=
  match lookupE (readInDockerCompose disk) "services" with
  | some (.m _) => true
  | some _ => false
  | none => true

/-- Lookup by lowercased key: the first entry whose lowercased key equals
the (already lowercase) query.  This is how a key is found after viper
normalization. -/
def lookupLow : Entries → String → Option YVal
  | [], _ => none
  | (k, v) :: rest, key => if lowerStr k = key then some v else lookupLow rest key

/-- All keys of a mapping level are already lowercase. -/
def KeysLower (es : Entries) : Prop := ∀ e ∈ es, lowerStr e.1 = e.1

/-- A mapping level is a fixpoint of viper normalization: keys lowercase and
values normalized, at every depth. -/
def NormalE (es : Entries) : Prop := ∀ e ∈ es, lowerStr e.1 = e.1 ∧ e.2.normalize = e.2

/-- A `TestPorts` entry whose port gets bind-tested: its service is about to
start and its configured host is the service's own engine-visible name or
the loopback address. -/
def portQualifies (services : List String) (getString : String → String)
    (pc : PortCheck) : Prop :=
  services.contains pc.serviceName = true ∧
  (getString pc.hostKey = pc.serviceName ∨ getString pc.hostKey = "127.0.0.1")

/-- Spec-side view for the status row: the identity port mappings (container
port equal to published port, published on all interfaces) in ascending
order. -/
def barePortsAscending (ports : List PortInfo) : List Nat :=
  List.insertionSort (fun a b : Nat => a ≤ b)
    ((ports.filter fun p => p.publicPort > 0 ∧ p.privatePort = p.publicPort ∧ p.ip = "0.0.0.0").map
      (fun p => p.privatePort))

/-- Spec-side view for the status row: the non-identity mappings rendered as
explicit strings, in published-port order. -/
def explicitPortStrings (ports : List PortInfo) : List String :=
  ((sortPortsByPublic ports).filter
      fun p => p.publicPort > 0 ∧ ¬(p.privatePort = p.publicPort ∧ p.ip = "0.0.0.0")).map
    fmtPortMap

/-- The row rendering as the code produces it, written spec-side: explicit
mapping strings first, the bare ascending port list concatenated after
them. -/
def amendedPortString (ports : List PortInfo) : String :=
  let e := String.intercalate ", " (explicitPortStrings ports)
  let b := (barePortsAscending ports).map toString
  (if b.length > 0 ∧ e.length > 0 then e ++ ", " else e) ++ String.intercalate ", " b

/-- The row rendering as the claim states it: the bare ascending port list
first, the explicit mapping strings concatenated after it. -/
def claimedPortString (ports : List PortInfo) : String :=
  let b := String.intercalate ", " ((barePortsAscending ports).map toString)
  let e := explicitPortStrings ports
  (if e.length > 0 ∧ b.length > 0 then b ++ ", " else b) ++ String.intercalate ", " e

/-! ## Basic lemmas: lowercasing, association lists, normalization -/

theorem char_toLower_toNat (c : Char) (h1 : 65 ≤ c.toNat) (h2 : c.toNat ≤ 90) :
    (Char.toLower c).toNat = c.toNat + 32 := by
  simp only [Char.toLower]
  rw [if_pos ⟨h1, h2⟩]
  rw [Char.ofNat, dif_pos (Or.inl (by omega))]
  rfl

theorem char_toLower_of_not (c : Char) (h : ¬(c.toNat ≥ 65 ∧ c.toNat ≤ 90)) :
    c.toLower = c := by
  rw [Char.toLower]; exact if_neg h

theorem char_toLower_idem (c : Char) : c.toLower.toLower = c.toLower := by
  by_cases h : c.toNat ≥ 65 ∧ c.toNat ≤ 90
  · exact char_toLower_of_not _ (by have := char_toLower_toNat c h.1 h.2; omega)
  · rw [char_toLower_of_not c h]; exact char_toLower_of_not c h

theorem lowerStr_idem (s : String) : lowerStr (lowerStr s) = lowerStr s := by
  show (⟨(s.data.map Char.toLower).map Char.toLower⟩ : String) = ⟨s.data.map Char.toLower⟩
  rw [List.map_map]
  congr 1
  exact List.map_congr_left fun c _ => char_toLower_idem c

theorem lookupE_insertE_self (es : Entries) (k : String) (v : YVal) :
    lookupE (insertE es k v) k = some v := by
  induction es with
  | nil => simp [insertE, lookupE]
  | cons e rest ih =>
    obtain ⟨k0, v0⟩ := e
    by_cases h : k0 = k
    · simp [insertE, h, lookupE]
    · simp [insertE, h, lookupE, ih]

theorem lookupE_insertE_ne (es : Entries) (k k2 : String) (v : YVal) (h : k2 ≠ k) :
    lookupE (insertE es k v) k2 = lookupE es k2 := by
  induction es with
  | nil => simp [insertE, lookupE, Ne.symm h]
  | cons e rest ih =>
    obtain ⟨k0, v0⟩ := e
    by_cases h0 : k0 = k
    · subst h0
      simp [insertE, lookupE, Ne.symm h]
    · simp only [insertE, if_neg h0]
      by_cases h2 : k0 = k2
      · simp [lookupE, h2]
      · simp [lookupE, h2, ih]

theorem lookupE_eraseE_self (es : Entries) (k : String) :
    lookupE (eraseE es k) k = none := by
  induction es with
  | nil => simp [eraseE, lookupE]
  | cons e rest ih =>
    obtain ⟨k0, v0⟩ := e
    by_cases h : k0 = k
    · simpa [eraseE, h, lookupE] using ih
    · simpa [eraseE, h, lookupE] using ih

theorem lookupE_eraseE_ne (es : Entries) (k k2 : String) (h : k2 ≠ k) :
    lookupE (eraseE es k) k2 = lookupE es k2 := by
  induction es with
  | nil => simp [eraseE, lookupE]
  | cons e rest ih =>
    obtain ⟨k0, v0⟩ := e
    simp only [eraseE, List.filter_cons] at ih ⊢
    by_cases h0 : k0 = k
    · subst h0
      simpa [lookupE, Ne.symm h] using ih
    · simp only [h0, decide_eq_true_eq, not_false_eq_true, Bool.not_false, if_true,
        decide_False, Bool.not_true]
      by_cases h2 : k0 = k2
      · subst h2
        rw [if_pos h0]
        simp [lookupE]
      · rw [if_pos h0]
        simp only [lookupE, if_neg h2]
        simpa using ih

theorem eraseE_of_lookupE_none (es : Entries) (k : String) (h : lookupE es k = none) :
    eraseE es k = es := by
  induction es with
  | nil => rfl
  | cons e rest ih =>
    obtain ⟨k0, v0⟩ := e
    by_cases h0 : k0 = k
    · simp [lookupE, h0] at h
    · simp only [lookupE, if_neg h0] at h
      simp [eraseE, h0] at ih ⊢
      exact ih h

theorem insertE_of_lookupE_some (es : Entries) (k : String) (v : YVal)
    (h : lookupE es k = some v) : insertE es k v = es := by
  induction es with
  | nil => simp [lookupE] at h
  | cons e rest ih =>
    obtain ⟨k0, v0⟩ := e
    by_cases h0 : k0 = k
    · subst h0
      simp [lookupE] at h
      simp [insertE, h]
    · simp only [lookupE, if_neg h0] at h
      simp [insertE, h0, ih h]

theorem lookupE_none_of_eraseE (es : Entries) (k k2 : String)
    (h : lookupE es k = none) : lookupE (eraseE es k2) k = none := by
  by_cases hk : k = k2
  · subst hk; exact lookupE_eraseE_self es k
  · rw [lookupE_eraseE_ne es k2 k hk]; exact h

theorem mem_insertE (es : Entries) (k : String) (v : YVal) (e : String × YVal)
    (h : e ∈ insertE es k v) : e = (k, v) ∨ e ∈ es := by
  induction es with
  | nil =>
    simp [insertE] at h
    exact Or.inl h
  | cons e0 rest ih =>
    obtain ⟨k0, v0⟩ := e0
    by_cases h0 : k0 = k
    · simp only [insertE, if_pos h0, List.mem_cons] at h
      rcases h with h | h
      · exact Or.inl h
      · exact Or.inr (List.mem_cons_of_mem _ h)
    · simp only [insertE, if_neg h0, List.mem_cons] at h
      rcases h with h | h
      · exact Or.inr (by simp [h])
      · rcases ih h with h2 | h2
        · exact Or.inl h2
        · exact Or.inr (List.mem_cons_of_mem _ h2)

mutual
theorem normalize_idem : ∀ v : YVal, v.normalize.normalize = v.normalize
  | .s _ => rfl
  | .m es => congrArg YVal.m (normalizeEntries_idem es)

theorem normalizeEntries_idem :
    ∀ es : Entries, normalizeEntries (normalizeEntries es) = normalizeEntries es
  | [] => rfl
  | (k, v) :: rest => by
    simp only [normalizeEntries]
    rw [lowerStr_idem, normalize_idem v, normalizeEntries_idem rest]
end

theorem normalE_normalizeEntries (es : Entries) : NormalE (normalizeEntries es) := by
  induction es with
  | nil => intro e he; simp [normalizeEntries] at he
  | cons e rest ih =>
    obtain ⟨k, v⟩ := e
    intro e2 he2
    simp only [normalizeEntries, List.mem_cons] at he2
    rcases he2 with h | h
    · subst h; exact ⟨lowerStr_idem k, normalize_idem v⟩
    · exact ih e2 h

theorem keysLower_of_normalE (es : Entries) (h : NormalE es) : KeysLower es :=
  fun e he => (h e he).1

theorem normalizeEntries_eq_self (es : Entries) (h : NormalE es) :
    normalizeEntries es = es := by
  induction es with
  | nil => rfl
  | cons e rest ih =>
    obtain ⟨k, v⟩ := e
    have hh := h (k, v) (List.mem_cons_self _ _)
    simp only [normalizeEntries]
    rw [hh.1, hh.2, ih (fun e2 he2 => h e2 (List.mem_cons_of_mem _ he2))]

theorem normalE_of_eq_self (es : Entries) (h : normalizeEntries es = es) : NormalE es := by
  rw [← h]
  exact normalE_normalizeEntries es

theorem normalE_eraseE (es : Entries) (k : String) (h : NormalE es) :
    NormalE (eraseE es k) :=
  fun e he => h e (List.mem_of_mem_filter he)

theorem normalE_insertE (es : Entries) (k : String) (v : YVal) (h : NormalE es)
    (hk : lowerStr k = k) (hv : v.normalize = v) : NormalE (insertE es k v) := by
  intro e he
  rcases mem_insertE es k v e he with h2 | h2
  · subst h2; exact ⟨hk, hv⟩
  · exact h e h2

theorem normalE_foldl_eraseE (names : List String) (m : Entries) (h : NormalE m) :
    NormalE (names.foldl (fun m2 svc => eraseE m2 (lowerStr svc)) m) := by
  induction names generalizing m with
  | nil => exact h
  | cons n rest ih => exact ih _ (normalE_eraseE _ _ h)

theorem lookup_normal (es : Entries) (k : String) (v : YVal) (hN : NormalE es)
    (h : lookupE es k = some v) : v.normalize = v := by
  induction es with
  | nil => simp [lookupE] at h
  | cons e rest ih =>
    obtain ⟨k0, v0⟩ := e
    by_cases h0 : k0 = k
    · simp only [lookupE, if_pos h0, Option.some.injEq] at h
      subst h
      exact (hN (k0, v0) (List.mem_cons_self _ _)).2
    · simp only [lookupE, if_neg h0] at h
      exact ih (fun e2 he2 => hN e2 (List.mem_cons_of_mem _ he2)) h

theorem lookupE_normalizeEntries (es : Entries) (key : String) :
    lookupE (normalizeEntries es) key = (lookupLow es key).map YVal.normalize := by
  induction es with
  | nil => rfl
  | cons e rest ih =>
    obtain ⟨k, v⟩ := e
    simp only [normalizeEntries, lookupE, lookupLow]
    by_cases h : lowerStr k = key <;> simp [h, ih]

theorem lookupLow_eq_lookupE (es : Entries) (key : String) (h : KeysLower es) :
    lookupLow es key = lookupE es key := by
  induction es with
  | nil => rfl
  | cons e rest ih =>
    obtain ⟨k, v⟩ := e
    have hk := h (k, v) (List.mem_cons_self _ _)
    simp only [lookupLow, lookupE, hk]
    by_cases h2 : k = key
    · simp [h2]
    · simp [h2, ih (fun e2 he2 => h e2 (List.mem_cons_of_mem _ he2))]

theorem eraseE_cons (k0 : String) (v0 : YVal) (rest : Entries) (key : String) :
    eraseE ((k0, v0) :: rest) key =
      if k0 = key then eraseE rest key else (k0, v0) :: eraseE rest key := by
  by_cases h : k0 = key <;> simp [eraseE, List.filter_cons, h]

theorem lookupLow_eraseE_ne (es : Entries) (k0 key : String) (h : lowerStr k0 ≠ key) :
    lookupLow (eraseE es k0) key = lookupLow es key := by
  induction es with
  | nil => rfl
  | cons e rest ih =>
    obtain ⟨k, v⟩ := e
    rw [eraseE_cons]
    by_cases hk : k = k0
    · subst hk
      rw [if_pos rfl, ih]
      simp [lookupLow, h]
    · rw [if_neg hk]
      simp only [lookupLow]
      by_cases h2 : lowerStr k = key <;> simp [h2, ih]

theorem lookupLow_insertE_ne (es : Entries) (k0 key : String) (v : YVal)
    (h : lowerStr k0 ≠ key) :
    lookupLow (insertE es k0 v) key = lookupLow es key := by
  induction es with
  | nil => simp [insertE, lookupLow, h]
  | cons e rest ih =>
    obtain ⟨k, v0⟩ := e
    by_cases hk : k = k0
    · subst hk
      simp [insertE, lookupLow, h]
    · simp only [insertE, if_neg hk, lookupLow]
      by_cases h2 : lowerStr k = key <;> simp [h2, ih]

theorem lookupLow_insertE_self (es : Entries) (k0 : String) (v : YVal)
    (hes : KeysLower es) (hk : lowerStr k0 = k0) :
    lookupLow (insertE es k0 v) k0 = some v := by
  induction es with
  | nil => simp [insertE, lookupLow, hk]
  | cons e rest ih =>
    obtain ⟨k, v0⟩ := e
    by_cases h0 : k = k0
    · subst h0
      simp [insertE, lookupLow, hk]
    · have hkl := hes (k, v0) (List.mem_cons_self _ _)
      simp only [insertE, if_neg h0, lookupLow, hkl, if_neg h0]
      exact ih (fun e2 he2 => hes e2 (List.mem_cons_of_mem _ he2))

theorem lookupLow_insertE_of_none (es : Entries) (k0 : String) (v : YVal)
    (h : lookupLow es (lowerStr k0) = none) :
    lookupLow (insertE es k0 v) (lowerStr k0) = some v := by
  induction es with
  | nil => simp [insertE, lookupLow]
  | cons e rest ih =>
    obtain ⟨k, v0⟩ := e
    simp only [lookupLow] at h
    by_cases h2 : lowerStr k = lowerStr k0
    · simp [h2] at h
    · have hk : k ≠ k0 := fun he => h2 (by rw [he])
      simp only [insertE, if_neg hk, lookupLow, if_neg h2]
      exact ih (by simpa [h2] using h)

theorem lookupE_foldl_eraseE_none (names : List String) (m : Entries) (k : String)
    (h : lookupE m k = none) :
    lookupE (names.foldl (fun m2 svc => eraseE m2 (lowerStr svc)) m) k = none := by
  induction names generalizing m with
  | nil => exact h
  | cons a rest ih => exact ih _ (lookupE_none_of_eraseE _ _ _ h)

theorem lookupE_foldl_eraseE_mem (names : List String) (m : Entries) (n : String)
    (hn : n ∈ names) :
    lookupE (names.foldl (fun m2 svc => eraseE m2 (lowerStr svc)) m) (lowerStr n) = none := by
  induction names generalizing m with
  | nil => cases hn
  | cons a rest ih =>
    rcases List.mem_cons.mp hn with h | h
    · subst h
      exact lookupE_foldl_eraseE_none rest _ _ (lookupE_eraseE_self m (lowerStr n))
    · exact ih _ h

theorem foldl_eraseE_of_none (names : List String) (m : Entries)
    (h : ∀ n ∈ names, lookupE m (lowerStr n) = none) :
    names.foldl (fun m2 svc => eraseE m2 (lowerStr svc)) m = m := by
  induction names with
  | nil => rfl
  | cons a rest ih =>
    simp only [List.foldl_cons]
    rw [eraseE_of_lookupE_none _ _ (h a (List.mem_cons_self _ _))]
    exact ih (fun n hn => h n (List.mem_cons_of_mem _ hn))

/-! ## Claim C4: persist always writes the version tag, never a top-level
`networks` key, and leaves every other top-level key unchanged -/

/-- C4: for every document value passed to `setDockerComposeDefaultsAndWrite`,
the written document contains `version = "2.4"`, contains no top-level
`networks` key, and maps every other top-level key exactly as the input
document does. -/
theorem claim4_persist_defaults (curConfig : Entries) (k : String)
    (h1 : k ≠ "version") (h2 : k ≠ "networks") :
    lookupE (setDockerComposeDefaultsAndWrite curConfig) "version" = some (.s "2.4") ∧
    lookupE (setDockerComposeDefaultsAndWrite curConfig) "networks" = none ∧
    lookupE (setDockerComposeDefaultsAndWrite curConfig) k = lookupE curConfig k := by
  unfold setDockerComposeDefaultsAndWrite
  refine ⟨?_, ?_, ?_⟩
  · rw [lookupE_eraseE_ne _ _ _ (by decide)]
    exact lookupE_insertE_self _ _ _
  · exact lookupE_eraseE_self _ _
  · rw [lookupE_eraseE_ne _ _ _ h2]
    exact lookupE_insertE_ne _ _ _ _ h1

/-- C4 witness: at a concrete document holding a `networks` key, an old
`version` and an untouched `volumes` key. -/
theorem claim4_persist_defaults_witness :
    ("volumes" ≠ "version" ∧ "volumes" ≠ "networks") ∧
    (lookupE (setDockerComposeDefaultsAndWrite
        [("networks", .m []), ("version", .s "2"), ("volumes", .m [("v", .m [])])])
        "version" = some (.s "2.4") ∧
     lookupE (setDockerComposeDefaultsAndWrite
        [("networks", .m []), ("version", .s "2"), ("volumes", .m [("v", .m [])])])
        "networks" = none ∧
     lookupE (setDockerComposeDefaultsAndWrite
        [("networks", .m []), ("version", .s "2"), ("volumes", .m [("v", .m [])])])
        "volumes" =
       lookupE [("networks", .m []), ("version", .s "2"), ("volumes", .m [("v", .m [])])]
        "volumes") :=
  ⟨⟨by decide, by decide⟩,
   claim4_persist_defaults
     [("networks", .m []), ("version", .s "2"), ("volumes", .m [("v", .m [])])]
     "volumes" (by decide) (by decide)⟩

/-! ## Claim C6: declared third-party names are disjoint from the core set -/

/-- C6: for every configuration document, every name returned by
`GetAllInstalled3rdPartyServiceNames` lies outside the Core Service Set
`MythicPossibleServices`. -/
theorem claim6_thirdparty_disjoint_core (disk : Entries) (service : String)
    (h : service ∈ GetAllInstalled3rdPartyServiceNames disk) :
    service ∉ MythicPossibleServices := by
  unfold GetAllInstalled3rdPartyServiceNames at h
  rcases hm : lookupE (readInDockerCompose disk) "services" with _ | v
  · rw [hm] at h
    simp at h
  · rw [hm] at h
    cases v with
    | s _ => simp at h
    | m svcs =>
      simp only [List.mem_filter] at h
      intro hc
      have h2 := h.2
      simp at h2
      exact h2 hc

/-- C6 witness: a document declaring one core and one third-party service. -/
theorem claim6_thirdparty_disjoint_core_witness :
    "custom_agent" ∈ GetAllInstalled3rdPartyServiceNames
        [("services", .m [("mythic_server", .m []), ("custom_agent", .m [])])] ∧
    "custom_agent" ∉ MythicPossibleServices :=
  ⟨by decide,
   claim6_thirdparty_disjoint_core
     [("services", .m [("mythic_server", .m []), ("custom_agent", .m [])])]
     "custom_agent" (by decide)⟩

/-! ## Claim C9: compose tool selection order -/

/-- C9: for every compose invocation, the standalone `docker-compose` tool is
preferred and invoked with the argument list unchanged; when it is missing,
the `docker` CLI is used with the single token `compose` prepended; when
both are missing the invocation is fatal with no further fallback. -/
theorem claim9_compose_tool_selection (installed : String → Bool) (args : List String) :
    (installed "docker-compose" = true →
      runDockerComposeSelect installed args = some ("docker-compose", args)) ∧
    (installed "docker-compose" = false → installed "docker" = true →
      runDockerComposeSelect installed args = some ("docker", "compose" :: args)) ∧
    (installed "docker-compose" = false → installed "docker" = false →
      runDockerComposeSelect installed args = none) := by
  refine ⟨?_, ?_, ?_⟩ <;> intro h1 <;> simp [runDockerComposeSelect, h1]

/-- C9 witness: all three installation situations at a concrete argument
list. -/
theorem claim9_compose_tool_selection_witness :
    (runDockerComposeSelect (fun t => t == "docker-compose") ["up", "-d"]
        = some ("docker-compose", ["up", "-d"])) ∧
    (runDockerComposeSelect (fun t => t == "docker") ["up", "-d"]
        = some ("docker", ["compose", "up", "-d"])) ∧
    (runDockerComposeSelect (fun _ => false) ["up", "-d"] = none) :=
  ⟨(claim9_compose_tool_selection (fun t => t == "docker-compose") ["up", "-d"]).1
      (by decide),
   (claim9_compose_tool_selection (fun t => t == "docker") ["up", "-d"]).2.1
      (by decide) (by decide),
   (claim9_compose_tool_selection (fun _ => false) ["up", "-d"]).2.2
      (by decide) (by decide)⟩

/-! ## Claim C10: removing an unknown volume is a successful no-op -/

/-- C10: for every volume name absent from the engine's volume list,
`RemoveVolume` issues no container or volume removal and returns a nil
error. -/
theorem claim10_removeVolume_absent (engineVolumes : List String)
    (containers : List ContainerInfo) (volumeRemoveErr : String → Option String)
    (volumeName : String) (h : volumeName ∉ engineVolumes) :
    RemoveVolume engineVolumes containers volumeRemoveErr volumeName = ([], none) := by
  unfold RemoveVolume
  rw [List.find?_eq_none.mpr]
  intro x hx
  simp only [decide_eq_true_eq]
  intro he
  exact h (he ▸ hx)

/-- C10 witness: a volume name unknown to an engine that knows two volumes
and one container. -/
theorem claim10_removeVolume_absent_witness :
    "ghost_volume" ∉ ["mythic_postgres_volume", "mythic_graphql_volume"] ∧
    RemoveVolume ["mythic_postgres_volume", "mythic_graphql_volume"]
        [⟨"c1", "mythic_postgres", ["mythic_postgres_volume"]⟩]
        (fun _ => none) "ghost_volume" = ([], none) :=
  ⟨by decide,
   claim10_removeVolume_absent _ _ _ _ (by decide)⟩

/-! ## Claim C7: port prechecking before a start -/

theorem testPortsAux_attempted_qualifies (services : List String)
    (getString : String → String) (getInt : String → Nat) (portBusy : Nat → Bool)
    (l : List PortCheck) (s : String) (p : Nat)
    (h : (s, p) ∈ (testPortsAux services getString getInt portBusy l).attempted) :
    ∃ pc ∈ l, pc.serviceName = s ∧ portQualifies services getString pc ∧
      p = getInt pc.portKey := by
  induction l with
  | nil => simp [testPortsAux] at h
  | cons pc rest ih =>
    simp only [testPortsAux] at h
    by_cases h1 : services.contains pc.serviceName = true
    · rw [if_pos h1] at h
      by_cases h2 : getString pc.hostKey = pc.serviceName ∨ getString pc.hostKey = "127.0.0.1"
      · rw [if_pos h2] at h
        by_cases h3 : portBusy (getInt pc.portKey) = true
        · rw [if_pos h3] at h
          simp only [List.mem_singleton, Prod.mk.injEq] at h
          exact ⟨pc, List.mem_cons_self _ _, h.1.symm, ⟨h1, h2⟩, h.2⟩
        · rw [if_neg h3] at h
          rcases List.mem_cons.mp h with he | he
          · rw [Prod.mk.injEq] at he
            exact ⟨pc, List.mem_cons_self _ _, he.1.symm, ⟨h1, h2⟩, he.2⟩
          · rcases ih he with ⟨pc2, hm, hs, hq, hp⟩
            exact ⟨pc2, List.mem_cons_of_mem _ hm, hs, hq, hp⟩
      · rw [if_neg h2] at h
        rcases ih h with ⟨pc2, hm, hs, hq, hp⟩
        exact ⟨pc2, List.mem_cons_of_mem _ hm, hs, hq, hp⟩
    · rw [if_neg h1] at h
      rcases ih h with ⟨pc2, hm, hs, hq, hp⟩
      exact ⟨pc2, List.mem_cons_of_mem _ hm, hs, hq, hp⟩

theorem testPortsAux_fatal_false_attempts (services : List String)
    (getString : String → String) (getInt : String → Nat) (portBusy : Nat → Bool)
    (l : List PortCheck)
    (hf : (testPortsAux services getString getInt portBusy l).fatal = false) :
    ∀ pc ∈ l, portQualifies services getString pc →
      (pc.serviceName, getInt pc.portKey) ∈
        (testPortsAux services getString getInt portBusy l).attempted := by
  induction l with
  | nil => intro pc hm; cases hm
  | cons pc0 rest ih =>
    intro pc hm hq
    simp only [testPortsAux] at hf ⊢
    by_cases h1 : services.contains pc0.serviceName = true
    · rw [if_pos h1] at hf ⊢
      by_cases h2 : getString pc0.hostKey = pc0.serviceName ∨ getString pc0.hostKey = "127.0.0.1"
      · rw [if_pos h2] at hf ⊢
        by_cases h3 : portBusy (getInt pc0.portKey) = true
        · rw [if_pos h3] at hf
          simp at hf
        · rw [if_neg h3] at hf ⊢
          rcases List.mem_cons.mp hm with he | he
          · subst he
            exact List.mem_cons_self _ _
          · exact List.mem_cons_of_mem _ (ih hf pc he hq)
      · rw [if_neg h2] at hf ⊢
        rcases List.mem_cons.mp hm with he | he
        · subst he
          exact absurd hq.2 h2
        · exact ih hf pc he hq
    · rw [if_neg h1] at hf ⊢
      rcases List.mem_cons.mp hm with he | he
      · subst he
        exact absurd hq.1 h1
      · exact ih hf pc he hq

theorem testPortsAux_fatal_iff (services : List String)
    (getString : String → String) (getInt : String → Nat) (portBusy : Nat → Bool)
    (l : List PortCheck) :
    (testPortsAux services getString getInt portBusy l).fatal = true ↔
      ∃ pc ∈ l, portQualifies services getString pc ∧
        portBusy (getInt pc.portKey) = true := by
  induction l with
  | nil => simp [testPortsAux]
  | cons pc0 rest ih =>
    simp only [testPortsAux]
    by_cases h1 : services.contains pc0.serviceName = true
    · rw [if_pos h1]
      by_cases h2 : getString pc0.hostKey = pc0.serviceName ∨ getString pc0.hostKey = "127.0.0.1"
      · rw [if_pos h2]
        by_cases h3 : portBusy (getInt pc0.portKey) = true
        · rw [if_pos h3]
          constructor
          · intro _
            exact ⟨pc0, List.mem_cons_self _ _, ⟨h1, h2⟩, h3⟩
          · intro _
            rfl
        · rw [if_neg h3]
          constructor
          · intro hfat
            rcases ih.mp hfat with ⟨pc, hm, hq, hb⟩
            exact ⟨pc, List.mem_cons_of_mem _ hm, hq, hb⟩
          · rintro ⟨pc, hm, hq, hb⟩
            rcases List.mem_cons.mp hm with he | he
            · subst he
              exact absurd hb h3
            · exact ih.mpr ⟨pc, he, hq, hb⟩
      · rw [if_neg h2]
        constructor
        · intro hfat
          rcases ih.mp hfat with ⟨pc, hm, hq, hb⟩
          exact ⟨pc, List.mem_cons_of_mem _ hm, hq, hb⟩
        · rintro ⟨pc, hm, hq, hb⟩
          rcases List.mem_cons.mp hm with he | he
          · subst he
            exact absurd hq.2 h2
          · exact ih.mpr ⟨pc, he, hq, hb⟩
    · rw [if_neg h1]
      constructor
      · intro hfat
        rcases ih.mp hfat with ⟨pc, hm, hq, hb⟩
        exact ⟨pc, List.mem_cons_of_mem _ hm, hq, hb⟩
      · rintro ⟨pc, hm, hq, hb⟩
        rcases List.mem_cons.mp hm with he | he
        · subst he
          exact absurd hq.1 h1
        · exact ih.mpr ⟨pc, he, hq, hb⟩

/-- C7: for every start set and environment binding table, (1) every
attempted bind belongs to a `portChecks` entry whose service is in the start
set and whose configured host is the service's own name or the loopback
address, on exactly the configured port — so services with any other host,
and services outside the start set, are never bind-tested; (2) when no bind
fails, every such qualifying service has its bind attempted (and released);
(3) the run is fatal exactly when some qualifying service's port is already
bound. -/
theorem claim7_testPorts_precheck (services : List String)
    (getString : String → String) (getInt : String → Nat) (portBusy : Nat → Bool) :
    (∀ s p, (s, p) ∈ (TestPorts services getString getInt portBusy).attempted →
       ∃ pc ∈ portChecks, pc.serviceName = s ∧ portQualifies services getString pc ∧
         p = getInt pc.portKey) ∧
    ((TestPorts services getString getInt portBusy).fatal = false →
       ∀ pc ∈ portChecks, portQualifies services getString pc →
         (pc.serviceName, getInt pc.portKey) ∈
           (TestPorts services getString getInt portBusy).attempted) ∧
    ((TestPorts services getString getInt portBusy).fatal = true ↔
       ∃ pc ∈ portChecks, portQualifies services getString pc ∧
         portBusy (getInt pc.portKey) = true) :=
  ⟨fun s p h => testPortsAux_attempted_qualifies services getString getInt portBusy
      portChecks s p h,
   fun hf => testPortsAux_fatal_false_attempts services getString getInt portBusy
      portChecks hf,
   testPortsAux_fatal_iff services getString getInt portBusy portChecks⟩

/-- C7 witness: starting `mythic_server` (host bound to itself) and
`mythic_postgres` (host bound elsewhere) with no port busy: the server's
port is bind-tested, the run is not fatal, and the postgres port is never
attempted. -/
theorem claim7_testPorts_precheck_witness :
    (TestPorts ["mythic_server", "mythic_postgres"]
        (fun k => if k = "MYTHIC_SERVER_HOST" then "mythic_server" else "db.example.com")
        (fun k => if k = "MYTHIC_SERVER_PORT" then 7443 else 5432)
        (fun _ => false)).fatal = false ∧
    ("mythic_server", 7443) ∈
      (TestPorts ["mythic_server", "mythic_postgres"]
        (fun k => if k = "MYTHIC_SERVER_HOST" then "mythic_server" else "db.example.com")
        (fun k => if k = "MYTHIC_SERVER_PORT" then 7443 else 5432)
        (fun _ => false)).attempted :=
  ⟨by decide,
   (claim7_testPorts_precheck ["mythic_server", "mythic_postgres"]
        (fun k => if k = "MYTHIC_SERVER_HOST" then "mythic_server" else "db.example.com")
        (fun k => if k = "MYTHIC_SERVER_PORT" then 7443 else 5432)
        (fun _ => false)).2.1 (by decide)
      ⟨"MYTHIC_SERVER_HOST", "MYTHIC_SERVER_PORT", "mythic_server"⟩ (by decide)
      ⟨by decide, Or.inl (by decide)⟩⟩

/-! ## Claim C1: setService followed by getService -/

theorem keysLower_insertE (es : Entries) (k : String) (v : YVal) (h : KeysLower es)
    (hk : lowerStr k = k) : KeysLower (insertE es k v) := by
  intro e he
  rcases mem_insertE es k v e he with h2 | h2
  · subst h2; exact hk
  · exact h e h2

theorem getService_of_write (cur allSvcs pStruct : Entries) (service : String)
    (hK : KeysLower cur)
    (hdef : normalizeEntries pStruct = pStruct)
    (hfound : lookupLow (insertE allSvcs service (.m pStruct)) (lowerStr service)
        = some (.m pStruct)) :
    GetServiceConfiguration
        (setDockerComposeDefaultsAndWrite
          (insertE cur "services" (.m (insertE allSvcs service (.m pStruct)))))
        service
      = stripTransient pStruct := by
  have hmv : (YVal.m pStruct).normalize = .m pStruct := by
    show YVal.m (normalizeEntries pStruct) = .m pStruct
    rw [hdef]
  have h1 : lookupE (readInDockerCompose (setDockerComposeDefaultsAndWrite
      (insertE cur "services" (.m (insertE allSvcs service (.m pStruct)))))) "services"
      = some (.m (normalizeEntries (insertE allSvcs service (.m pStruct)))) := by
    show lookupE (normalizeEntries _) "services" = _
    rw [lookupE_normalizeEntries]
    unfold setDockerComposeDefaultsAndWrite
    rw [lookupLow_eraseE_ne _ _ _ (by decide),
      lookupLow_insertE_ne _ _ _ _ (by decide),
      lookupLow_insertE_self _ _ _ hK (by decide)]
    rfl
  have h2 : lookupE (normalizeEntries (insertE allSvcs service (.m pStruct)))
      (lowerStr service) = some (.m pStruct) := by
    rw [lookupE_normalizeEntries, hfound]
    show some ((YVal.m pStruct).normalize) = _
    rw [hmv]
  simp only [GetServiceConfiguration, h1, h2]

/-- C1 (amended): for every document whose `services` key is absent or a
mapping, calling `SetServiceConfiguration(n, def)` and then
`GetServiceConfiguration(n)` returns `def` with exactly the transient keys
(`network_mode`, `extra_hosts`, `build`, `networks`, `command`, `image`,
`healthcheck`) removed and no other key changed, provided the keys of `def`
are already (recursively) lowercase and the lowercased form of `n` does not
collide with a differently-cased existing service key; in general the
returned definition additionally has every mapping key lowercased by the
configuration library on re-read. -/
theorem claim1_set_get_roundtrip (disk : Entries) (service : String) (pStruct : Entries)
    (hdef : normalizeEntries pStruct = pStruct)
    (hname : lowerStr service = service ∨
      lookupE (declaredServices disk) (lowerStr service) = none)
    (hwf : servicesWellFormed disk = true) :
    (SetServiceConfiguration disk service pStruct).map
        (fun d => GetServiceConfiguration d service)
      = some (stripTransient pStruct) := by
  have hNcur : NormalE (readInDockerCompose disk) := normalE_normalizeEntries disk
  have hKcur : KeysLower (readInDockerCompose disk) := keysLower_of_normalE _ hNcur
  simp only [SetServiceConfiguration]
  rcases hm : lookupE (readInDockerCompose disk) "services" with _ | v
  · simp only [hm, Option.isSome_none, Bool.false_eq_true, if_false,
      lookupE_insertE_self]
    refine congrArg some ?_
    exact getService_of_write _ [] pStruct service
      (keysLower_insertE _ _ _ hKcur (by decide)) hdef
      (lookupLow_insertE_of_none [] service (.m pStruct) rfl)
  · cases v with
    | s sv =>
      exfalso
      unfold servicesWellFormed at hwf
      rw [hm] at hwf
      exact Bool.noConfusion hwf
    | m svcs =>
      have hvn : (YVal.m svcs).normalize = .m svcs := lookup_normal _ _ _ hNcur hm
      have hNsvcs : NormalE svcs := normalE_of_eq_self _ (YVal.m.inj hvn)
      have hKsvcs : KeysLower svcs := keysLower_of_normalE _ hNsvcs
      simp only [hm, Option.isSome_some, if_true]
      refine congrArg some ?_
      refine getService_of_write _ svcs pStruct service hKcur hdef ?_
      rcases hname with hs | hn
      · rw [hs]
        exact lookupLow_insertE_self svcs service _ hKsvcs hs
      · have hn2 : lookupLow svcs (lowerStr service) = none := by
          rw [lookupLow_eq_lookupE _ _ hKsvcs]
          unfold declaredServices at hn
          rw [hm] at hn
          exact hn
        exact lookupLow_insertE_of_none svcs service _ hn2

/-- C1 counterexample: the claim as stated fails for a definition holding a
non-lowercase key: storing `Foo` under service `apple` and reading it back
returns the key `foo` — the configuration library lowercases every mapping
key on re-read, so a key did change beyond the transient removals. -/
theorem claim1_counterexample :
    (SetServiceConfiguration [] "apple" [("Foo", .s "x")]).map
        (fun d => GetServiceConfiguration d "apple")
      ≠ some (stripTransient [("Foo", .s "x")]) := by
  decide

/-- C1 witness: a lowercase-keyed definition (one of whose keys, `image`, is
transient) stored under `agent` in a document already holding another
service. -/
theorem claim1_set_get_roundtrip_witness :
    normalizeEntries [("restart", .s "never"), ("image", .s "x")]
        = [("restart", .s "never"), ("image", .s "x")] ∧
    lowerStr "agent" = "agent" ∧
    servicesWellFormed [("services", .m [("other", .m [])])] = true ∧
    (SetServiceConfiguration [("services", .m [("other", .m [])])] "agent"
        [("restart", .s "never"), ("image", .s "x")]).map
        (fun d => GetServiceConfiguration d "agent")
      = some (stripTransient [("restart", .s "never"), ("image", .s "x")]) :=
  ⟨by decide, by decide, by decide,
   claim1_set_get_roundtrip [("services", .m [("other", .m [])])] "agent"
     [("restart", .s "never"), ("image", .s "x")] (by decide)
     (Or.inl (by decide)) (by decide)⟩

/-! ## Claim C5: removing services is idempotent and tolerant of missing
names -/

theorem eraseE_idem (es : Entries) (k : String) : eraseE (eraseE es k) k = eraseE es k :=
  eraseE_of_lookupE_none _ _ (lookupE_eraseE_self es k)

theorem lookupE_write_version (cur : Entries) :
    lookupE (setDockerComposeDefaultsAndWrite cur) "version" = some (.s "2.4") := by
  unfold setDockerComposeDefaultsAndWrite
  rw [lookupE_eraseE_ne _ _ _ (by decide)]
  exact lookupE_insertE_self _ _ _

theorem lookupE_write_networks (cur : Entries) :
    lookupE (setDockerComposeDefaultsAndWrite cur) "networks" = none :=
  lookupE_eraseE_self _ _

theorem lookupE_write_services (cur : Entries) :
    lookupE (setDockerComposeDefaultsAndWrite cur) "services" = lookupE cur "services" := by
  unfold setDockerComposeDefaultsAndWrite
  rw [lookupE_eraseE_ne _ _ _ (by decide)]
  exact lookupE_insertE_ne _ _ _ _ (by decide)

theorem normalE_write (cur : Entries) (h : NormalE cur) :
    NormalE (setDockerComposeDefaultsAndWrite cur) :=
  normalE_eraseE _ _ (normalE_insertE _ _ _ h (by decide) rfl)

theorem write_write (cur : Entries) :
    setDockerComposeDefaultsAndWrite (setDockerComposeDefaultsAndWrite cur)
      = setDockerComposeDefaultsAndWrite cur := by
  show eraseE (insertE (setDockerComposeDefaultsAndWrite cur) "version" (.s "2.4"))
        "networks"
      = setDockerComposeDefaultsAndWrite cur
  rw [insertE_of_lookupE_some _ _ _ (lookupE_write_version cur),
    eraseE_of_lookupE_none _ _ (lookupE_write_networks cur)]

theorem removeServices_idem (disk : Entries) (names : List String) (d : Entries)
    (h : RemoveServices disk names = some d) : RemoveServices d names = some d := by
  have hNcur : NormalE (readInDockerCompose disk) := normalE_normalizeEntries disk
  simp only [RemoveServices] at h ⊢
  rcases hm : lookupE (readInDockerCompose disk) "services" with _ | v
  · rw [hm] at h
    simp only [Option.some.injEq] at h
    subst h
    have hNd : NormalE (setDockerComposeDefaultsAndWrite (readInDockerCompose disk)) :=
      normalE_write _ hNcur
    have hread : readInDockerCompose (setDockerComposeDefaultsAndWrite
        (readInDockerCompose disk)) = setDockerComposeDefaultsAndWrite
        (readInDockerCompose disk) := normalizeEntries_eq_self _ hNd
    rw [hread, lookupE_write_services, hm, write_write]
  · cases v with
    | s sv =>
      rw [hm] at h
      simp at h
    | m svcs =>
      rw [hm] at h
      simp only [Option.some.injEq] at h
      subst h
      have hvn : (YVal.m svcs).normalize = .m svcs :=
        lookup_normal _ _ _ hNcur hm
      have hsvcs : normalizeEntries svcs = svcs := YVal.m.inj hvn
      have hNsvcs : NormalE svcs := normalE_of_eq_self _ hsvcs
      have hNnew : NormalE (names.foldl (fun m2 svc => eraseE m2 (lowerStr svc)) svcs) :=
        normalE_foldl_eraseE names svcs hNsvcs
      have hNins : NormalE (insertE (readInDockerCompose disk) "services"
          (.m (names.foldl (fun m2 svc => eraseE m2 (lowerStr svc)) svcs))) :=
        normalE_insertE _ _ _ hNcur (by decide)
          (congrArg YVal.m (normalizeEntries_eq_self _ hNnew))
      have hNd : NormalE (setDockerComposeDefaultsAndWrite (insertE
          (readInDockerCompose disk) "services"
          (.m (names.foldl (fun m2 svc => eraseE m2 (lowerStr svc)) svcs)))) :=
        normalE_write _ hNins
      have hread : readInDockerCompose (setDockerComposeDefaultsAndWrite (insertE
          (readInDockerCompose disk) "services"
          (.m (names.foldl (fun m2 svc => eraseE m2 (lowerStr svc)) svcs))))
          = setDockerComposeDefaultsAndWrite (insertE (readInDockerCompose disk) "services"
            (.m (names.foldl (fun m2 svc => eraseE m2 (lowerStr svc)) svcs))) :=
        normalizeEntries_eq_self _ hNd
      have hlook : lookupE (setDockerComposeDefaultsAndWrite (insertE
          (readInDockerCompose disk) "services"
          (.m (names.foldl (fun m2 svc => eraseE m2 (lowerStr svc)) svcs)))) "services"
          = some (.m (names.foldl (fun m2 svc => eraseE m2 (lowerStr svc)) svcs)) := by
        rw [lookupE_write_services]
        exact lookupE_insertE_self _ _ _
      rw [hread, hlook]
      have hfold : names.foldl (fun m2 svc => eraseE m2 (lowerStr svc))
          (names.foldl (fun m2 svc => eraseE m2 (lowerStr svc)) svcs)
          = names.foldl (fun m2 svc => eraseE m2 (lowerStr svc)) svcs :=
        foldl_eraseE_of_none names _ (fun n hn => lookupE_foldl_eraseE_mem names svcs n hn)
      refine congrArg some ?_
      rw [hfold, insertE_of_lookupE_some _ _ _ hlook, write_write]

theorem removeServices_noop (disk : Entries) (names : List String) (name : String)
    (h : lookupE (declaredServices disk) (lowerStr name) = none) :
    RemoveServices disk (name :: names) = RemoveServices disk names := by
  unfold declaredServices at h
  simp only [RemoveServices]
  rcases hm : lookupE (readInDockerCompose disk) "services" with _ | v
  · rfl
  · cases v with
    | s sv => rfl
    | m svcs =>
      rw [hm] at h
      simp only [List.foldl_cons]
      rw [eraseE_of_lookupE_none _ _ h]

/-- C5: for every document and service name list, removing the services is
idempotent (the document produced by a second `RemoveServices` run over the
same names equals the document produced by the first), and a name absent
from the `services` map (here: `name`, queried by its lowercased form as the
code deletes it) is a no-op — `RemoveServices` returns the same successful
result with or without it. -/
theorem claim5_removeServices_idem_noop (disk : Entries) (names : List String)
    (name : String) :
    (∀ d, RemoveServices disk names = some d → RemoveServices d names = some d) ∧
    (lookupE (declaredServices disk) (lowerStr name) = none →
      RemoveServices disk (name :: names) = RemoveServices disk names) :=
  ⟨fun d h => removeServices_idem disk names d h,
   fun h => removeServices_noop disk names name h⟩

/-- C5 witness: removing `apple` from a two-service document, twice, and
removing the absent name `ghost`. -/
theorem claim5_removeServices_idem_noop_witness :
    RemoveServices [("services", .m [("apple", .m []), ("b", .m [])]), ("networks", .s "x")]
        ["apple"] = some [("services", .m [("b", .m [])]), ("version", .s "2.4")] ∧
    RemoveServices [("services", .m [("b", .m [])]), ("version", .s "2.4")] ["apple"]
        = some [("services", .m [("b", .m [])]), ("version", .s "2.4")] ∧
    lookupE (declaredServices
        [("services", .m [("apple", .m []), ("b", .m [])]), ("networks", .s "x")])
        (lowerStr "ghost") = none ∧
    RemoveServices [("services", .m [("apple", .m []), ("b", .m [])]), ("networks", .s "x")]
        ["ghost", "apple"]
      = RemoveServices
          [("services", .m [("apple", .m []), ("b", .m [])]), ("networks", .s "x")]
          ["apple"] :=
  ⟨by decide,
   (claim5_removeServices_idem_noop
      [("services", .m [("apple", .m []), ("b", .m [])]), ("networks", .s "x")]
      ["apple"] "ghost").1 _ (by decide),
   by decide,
   (claim5_removeServices_idem_noop
      [("services", .m [("apple", .m []), ("b", .m [])]), ("networks", .s "x")]
      ["apple"] "ghost").2 (by decide)⟩

/-! ## Claim C8: port rendering in a status row -/

theorem collectPorts_foldl (l : List PortInfo) (acc : List Nat × List String) :
    l.foldl collectStep acc =
      (acc.1 ++
        (l.filter (fun p =>
            p.publicPort > 0 ∧ p.privatePort = p.publicPort ∧ p.ip = "0.0.0.0")).map
          (fun p => p.privatePort),
       acc.2 ++
        (l.filter (fun p =>
            p.publicPort > 0 ∧ ¬(p.privatePort = p.publicPort ∧ p.ip = "0.0.0.0"))).map
          fmtPortMap) := by
  induction l generalizing acc with
  | nil => simp
  | cons p rest ih =>
    simp only [List.foldl_cons, List.filter_cons]
    by_cases h1 : p.publicPort > 0
    · by_cases h2 : p.privatePort = p.publicPort ∧ p.ip = "0.0.0.0"
      · rw [ih]
        simp [collectStep, h1, h2]
      · rw [ih]
        simp [collectStep, h1, h2]
    · rw [ih]
      simp [collectStep, h1]

theorem bare_sorted_eq (ports : List PortInfo) :
    List.insertionSort (fun a b : Nat => a ≤ b)
        (((sortPortsByPublic ports).filter
            (fun p =>
              p.publicPort > 0 ∧ p.privatePort = p.publicPort ∧ p.ip = "0.0.0.0")).map
          (fun p => p.privatePort))
      = barePortsAscending ports := by
  exact List.eq_of_perm_of_sorted
    (((List.perm_insertionSort _ _).trans
        (List.Perm.map _ (List.Perm.filter _ (List.perm_insertionSort _ ports)))).trans
      (List.perm_insertionSort (fun a b : Nat => a ≤ b) _).symm)
    (List.sorted_insertionSort _ _)
    (List.sorted_insertionSort _ _)

/-- C8 (amended): in every printed status row, identity port mappings
(container port equal to published port, published on all interfaces) are
rendered as a bare ascending port list and non-identity mappings as explicit
internal/proto -> host:external strings, but the bare list is concatenated
after the explicit mapping strings, not before them. -/
theorem claim8_status_port_rendering (ports : List PortInfo) :
    statusPortString ports = amendedPortString ports ∧
    List.Sorted (fun a b : Nat => a ≤ b) (barePortsAscending ports) := by
  constructor
  · cases hp : ports with
    | nil => rfl
    | cons p0 rest =>
      unfold statusPortString amendedPortString
      rw [if_pos (by simp)]
      simp only [collectPorts, collectPorts_foldl, List.nil_append]
      rw [show ∀ l : List Nat,
            (if l.length > 0 then List.insertionSort (fun a b : Nat => a ≤ b) l else l)
              = List.insertionSort (fun a b : Nat => a ≤ b) l from ?_]
      · rw [bare_sorted_eq]
        rfl
      · intro l
        cases l <;> simp [List.insertionSort]
  · exact List.sorted_insertionSort _ _

/-- C8 counterexample: a container publishing the identity mapping 80 and
the non-identity mapping 443 to 8443: the code renders the explicit string
first and the bare port after it, while the claim prescribes the opposite
order. -/
theorem claim8_counterexample :
    statusPortString [⟨80, 80, "0.0.0.0", "tcp"⟩, ⟨443, 8443, "0.0.0.0", "tcp"⟩]
        = "443/tcp -> 0.0.0.0:8443, 80" ∧
    claimedPortString [⟨80, 80, "0.0.0.0", "tcp"⟩, ⟨443, 8443, "0.0.0.0", "tcp"⟩]
        = "80, 443/tcp -> 0.0.0.0:8443" ∧
    statusPortString [⟨80, 80, "0.0.0.0", "tcp"⟩, ⟨443, 8443, "0.0.0.0", "tcp"⟩] ≠
      claimedPortString [⟨80, 80, "0.0.0.0", "tcp"⟩, ⟨443, 8443, "0.0.0.0", "tcp"⟩] := by
  refine ⟨by decide, by decide, by decide⟩

/-! ## Claim C2: the log frame decoder (code bug) -/

/-- C2 (failing input): the claim says the decoder reads exactly the
announced payload length and fails with a truncation error when the input
ends mid-payload, never returning a short payload.  The code instead issues
single `Read` calls and ignores their byte counts and errors: on a stream
delivering a well-formed header announcing 5 payload bytes followed by only
3 bytes, it prints those 3 bytes plus 2 zero bytes from the untouched
buffer and terminates as if the stream were well-formed — there is no
truncation error anywhere in the code. -/
theorem claim2_decoder_short_payload :
    getLogsDecode [[1, 0, 0, 0, 0, 0, 0, 5], [65, 66, 67]] = [65, 66, 67, 0, 0] := by
  decide

/-! ## Claim C3: setService stores under the raw, unlowercased name
(code bug) -/

/-- C3 (failing input): the claim says `SetServiceConfiguration` stores the
definition under the lowercased service name.  Storing `Apple` into an
empty document instead writes the key `Apple` verbatim into the `services`
map — the Go assignment `allServices[service] = pStruct` does not lowercase,
although the surrounding log message, `GetServiceConfiguration` and
`RemoveServices` all do. -/
theorem claim3_setService_raw_key :
    SetServiceConfiguration [] "Apple" [] =
      some [("services", .m [("Apple", .m [])]), ("version", .s "2.4")] ∧
    lowerStr "Apple" = "apple" := by
  exact ⟨by decide, by decide⟩

/-- Sanity check of the decoder embedding: a stream delivered as complete
header and payload chunks prints the concatenated payloads. -/
theorem getLogsDecode_wellformed_frames :
    getLogsDecode [[1, 0, 0, 0, 0, 0, 0, 3], [65, 66, 67], [2, 0, 0, 0, 0, 0, 0, 1], [68]]
      = [65, 66, 67, 68] := by
  decide

end Mythic
